import Mathlib

/-!
Verification of the `ip` package of the `myip` repository
(`internal/ip`: `ExtractClientIP`, `FindIPv4`, `FindIPv6`, `IsValid`,
`IsPrivate`, `IsCloudflareRequest`, `RemoveDuplicates`, `GetInfo`).

The package is built on the Go standard library's `net` package.  The
relevant stdlib functions (`net.ParseIP`, `IP.To4`, `net.SplitHostPort`,
`net.ParseCIDR`, `IPNet.Contains`, `strings.Split`, `strings.TrimSpace`)
are embedded here byte-for-byte after the Go sources (Go ≥ 1.18, where
`net.ParseIP` delegates to `netip.ParseAddr` and rejects zone suffixes).
IP addresses are 16-byte lists of `Nat` (each byte < 256), exactly the
`net.IP` representation produced by `net.ParseIP`.
-/

namespace MyIP

/-! ### Character primitives (ASCII, as Go operates on bytes) -/

/-- Decimal digit, `'0' ≤ c ≤ '9'` (Go byte comparison). -/
def isDigitGo (c : Char) : Bool := 48 ≤ c.toNat && c.toNat ≤ 57

/-- Lower-case hex letter `a`–`f`. -/
def isLowerHex (c : Char) : Bool := 97 ≤ c.toNat && c.toNat ≤ 102

/-- Upper-case hex letter `A`–`F`. -/
def isUpperHex (c : Char) : Bool := 65 ≤ c.toNat && c.toNat ≤ 70

/-- Hex digit as accepted by `netip.parseIPv6`. -/
def isHexGo (c : Char) : Bool := isDigitGo c || isLowerHex c || isUpperHex c

/-- Value of a hex digit. -/
def hexVal (c : Char) : Nat :=
  if isDigitGo c then c.toNat - 48
  else if isLowerHex c then c.toNat - 87
  else c.toNat - 55

/-- `unicode.IsSpace`: the Unicode White_Space code points, used by
`strings.TrimSpace`. -/
def goIsSpace (c : Char) : Bool :=
  ([9, 10, 11, 12, 13, 32, 133, 160, 5760, 8192, 8193, 8194, 8195, 8196,
    8197, 8198, 8199, 8200, 8201, 8202, 8232, 8233, 8239, 8287, 12288] :
    List Nat).contains c.toNat

/-- `strings.TrimSpace`: drop White_Space characters from both ends. -/
def trimSpaceChars (s : List Char) : List Char :=
  ((s.dropWhile goIsSpace).reverse.dropWhile goIsSpace).reverse

/-- `strings.TrimSpace` on a `String`. -/
def trimSpace (s : String) : String := ⟨trimSpaceChars s.data⟩

/-- Helper for `strings.Split(s, ",")`: accumulates the current piece
(reversed) and cuts at every comma. -/
def splitCommaAux : List Char → List Char → List (List Char)
  | [], cur => [cur.reverse]
  | c :: cs, cur =>
    if c = ',' then cur.reverse :: splitCommaAux cs []
    else splitCommaAux cs (c :: cur)

/-- `strings.Split(s, ",")`: split on every comma; never empty
(the empty string yields `[[]]`). -/
def splitComma (s : List Char) : List (List Char) := splitCommaAux s []

/-! ### `netip.parseIPv4` / embedded IPv4 fields

`parseIPv4Fields` walks the characters keeping the running octet value
`val`, the number of digits of the current octet `digLen`, and the number
of completed octets `pos`, exactly like the Go loop.  It requires exactly
four octets, each 0–255, decimal, with no leading zeros, consuming the
whole input. -/

def parseIPv4Fields : List Char → Nat → Nat → Nat → List Nat → Option (List Nat)
  | [], val, _, pos, fields =>
    if pos < 3 then none else some (fields ++ [val])
  | c :: cs, val, digLen, pos, fields =>
    if isDigitGo c then
      if digLen = 1 ∧ val = 0 then none   -- leading zero in octet
      else if 255 < val * 10 + (c.toNat - 48) then none
      else parseIPv4Fields cs (val * 10 + (c.toNat - 48)) (digLen + 1) pos fields
    else if c = '.' then
      if digLen = 0 ∨ cs.isEmpty then none  -- .1.2.3 / 1..2.3 / 1.2.3.
      else if pos = 3 then none             -- 1.2.3.4.5
      else parseIPv4Fields cs 0 0 (pos + 1) (fields ++ [val])
    else none

/-! ### `netip.parseIPv6`

The Go loop `for i < 16` runs at most 9 times (every iteration either
fails, stores one 16-bit group raising `i` by 2, or stores an embedded
IPv4 address and stops); fuel 16 therefore never runs out.  The loop
state is the remaining input `s`, the number of bytes written `i`, the
bytes written so far `acc` (`acc.length = i`), and the position of the
`::` ellipsis if one was seen. -/

/-- One hex group: consume hex digits accumulating the value; `none` on
overflow past `0xffff` (a hard parse failure in Go); otherwise the value,
the number of digits consumed and the rest. -/
def takeHex : List Char → Nat → Nat → Option (Nat × Nat × List Char)
  | [], acc, n => some (acc, n, [])
  | c :: cs, acc, n =>
    if isHexGo c then
      if 65535 < acc * 16 + hexVal c then none
      else takeHex cs (acc * 16 + hexVal c) (n + 1)
    else some (acc, n, c :: cs)

/-- The `for i < 16` loop of `netip.parseIPv6`.  Returns the final
`(bytes, i, ellipsis, remaining input)` or `none` on a parse error. -/
def v6loop : Nat → List Char → Nat → List Nat → Option Nat →
    Option (List Nat × Nat × Option Nat × List Char)
  | 0, _, _, _, _ => none
  | fuel + 1, s, i, acc, ell =>
    if 16 ≤ i then some (acc, i, ell, s)
    else
      match takeHex s 0 0 with
      | none => none                        -- field value ≥ 2^16
      | some (g, off, rest) =>
        if off = 0 then none                -- group must have ≥ 1 digit
        else if rest.head? = some '.' then
          -- trailing embedded IPv4 address
          if ell = none ∧ i ≠ 12 then none
          else if 16 < i + 4 then none
          else
            match parseIPv4Fields s 0 0 0 [] with
            | none => none
            | some fs => some (acc ++ fs, i + 4, ell, [])
        else
          match rest with
          | [] => some (acc ++ [g / 256, g % 256], i + 2, ell, [])
          | c :: rest2 =>
            if c = ':' then
              match rest2 with
              | [] => none                  -- colon must be followed by more
              | c2 :: rest3 =>
                if c2 = ':' then
                  match ell with
                  | some _ => none          -- multiple ::
                  | none =>
                    match rest3 with
                    | [] => some (acc ++ [g / 256, g % 256], i + 2, some (i + 2), [])
                    | _ :: _ =>
                      v6loop fuel rest3 (i + 2) (acc ++ [g / 256, g % 256]) (some (i + 2))
                else v6loop fuel rest2 (i + 2) (acc ++ [g / 256, g % 256]) ell
            else none                       -- want colon

/-- Post-loop processing of `netip.parseIPv6`: the whole input must be
consumed, and a short address is completed by expanding the `::`. -/
def v6finish : Option (List Nat × Nat × Option Nat × List Char) → Option (List Nat)
  | none => none
  | some (acc, i, ell, s) =>
    if s ≠ [] then none                     -- trailing garbage
    else if i < 16 then
      match ell with
      | none => none                        -- address too short
      | some e => some (acc.take e ++ List.replicate (16 - i) 0 ++ acc.drop e)
    else
      match ell with
      | some _ => none                      -- :: must expand to ≥ 1 group
      | none => some acc

/-- `len(s) >= 2 && s[0] == ':' && s[1] == ':'`: a leading ellipsis. -/
def startsDoubleColon : List Char → Bool
  | a :: b :: _ => a = ':' && b = ':'
  | _ => false

/-- `netip.parseIPv6` as used by `net.ParseIP` / `net.ParseCIDR`: both
reject zoned addresses, so any `%` makes the parse fail. -/
def parseIPv6Chars (s : List Char) : Option (List Nat) :=
  if s.contains '%' then none
  else if startsDoubleColon s then
    if (s.drop 2).isEmpty then some (List.replicate 16 0)
    else v6finish (v6loop 16 (s.drop 2) 0 [] (some 0))
  else v6finish (v6loop 16 s 0 [] none)

/-- The dispatch loop of `netip.ParseAddr`: the first of `.`, `:`, `%`
decides the address family (`%` alone is an error, as is no special
character at all). -/
def classify : List Char → Option Bool
  | [] => none
  | c :: cs =>
    if c = '.' then some true
    else if c = ':' then some false
    else if c = '%' then none
    else classify cs

/-- The IPv4-mapped 16-byte form `::ffff:a.b.c.d` (`Addr.As16`). -/
def v4mapped (fs : List Nat) : List Nat :=
  [0, 0, 0, 0, 0, 0, 0, 0, 0, 0, 255, 255] ++ fs

/-- `net.ParseIP`: parse either family, reject zones, return the 16-byte
form (`nil` is modelled as `none`). -/
def goParseIP (s : String) : Option (List Nat) :=
  match classify s.data with
  | some true => (parseIPv4Fields s.data 0 0 0 []).map v4mapped
  | some false => parseIPv6Chars s.data
  | none => none

/-- `IP.To4`: the 4-byte form of an IP, `none` unless the address is a
4-byte address or an IPv4-mapped 16-byte address. -/
def to4 (b : List Nat) : Option (List Nat) :=
  if b.length = 4 then some b
  else if b.length = 16 ∧ b.take 12 = [0, 0, 0, 0, 0, 0, 0, 0, 0, 0, 255, 255]
  then some (b.drop 12)
  else none

/-! ### `net.SplitHostPort` -/

/-- Index of the first occurrence of a character. -/
def idxOf (c : Char) : List Char → Option Nat
  | [] => none
  | x :: xs => if x = c then some 0 else (idxOf c xs).map (· + 1)

/-- Index of the last occurrence of `':'` (the port separator). -/
def lastColonIdx (s : List Char) : Option Nat :=
  (idxOf ':' s.reverse).map (fun k => s.length - 1 - k)

/-- `net.SplitHostPort`: split `host:port` / `[host]:port` on the last
colon; `none` models the error returns (missing port, missing `]`,
too many colons, stray brackets). -/
def splitHostPort (s : String) : Option (String × String) :=
  let cs := s.data
  match lastColonIdx cs with
  | none => none                            -- missing port
  | some i =>
    if cs.head? = some '[' then
      match idxOf ']' cs with
      | none => none                        -- missing ']'
      | some e =>
        if e + 1 = cs.length then none      -- missing port
        else if e + 1 = i then
          if (cs.drop 1).contains '[' then none
          else if (cs.drop (e + 1)).contains ']' then none
          else some (⟨(cs.drop 1).take (e - 1)⟩, ⟨cs.drop (i + 1)⟩)
        else none                           -- too many colons / missing port
    else
      if (cs.take i).contains ':' then none -- too many colons
      else if cs.contains '[' then none
      else if cs.contains ']' then none
      else some (⟨cs.take i⟩, ⟨cs.drop (i + 1)⟩)

/-! ### `net.ParseCIDR` and `IPNet.Contains` -/

/-- A parsed network: masked network address and mask, both byte lists
(4 bytes for IPv4 networks, 16 for IPv6), as in `net.IPNet`. -/
structure IPNet where
  ip : List Nat
  mask : List Nat
deriving DecidableEq

/-- `net.CIDRMask(ones, 8*l)`: `l` mask bytes for a prefix of `ones` bits
(`^byte(0xff >> n)` is `255 - 255 / 2^n`). -/
def cidrMask : Nat → Nat → List Nat
  | 0, _ => []
  | l + 1, n =>
    if 8 ≤ n then 255 :: cidrMask l (n - 8)
    else (255 - 255 / 2 ^ n) :: cidrMask l 0

/-- `dtoi` as used by `net.ParseCIDR` on the prefix length: the whole
string must be decimal digits, nonempty, staying below `0xFFFFFF`. -/
def dtoiAux : List Char → Nat → Option Nat
  | [], n => some n
  | c :: cs, n =>
    if isDigitGo c then
      let n2 := n * 10 + (c.toNat - 48)
      if 16777215 ≤ n2 then none else dtoiAux cs n2
    else none

/-- `dtoi` requiring the whole string to be consumed (ParseCIDR checks
`i == len(mask)`). -/
def dtoiFull : List Char → Option Nat
  | [] => none
  | c :: cs => dtoiAux (c :: cs) 0

/-- Split at the first `'/'` (`ParseCIDR`'s `IndexByte(s, '/')`). -/
def splitAtSlash : List Char → List Char → Option (List Char × List Char)
  | [], _ => none
  | c :: cs, acc =>
    if c = '/' then some (acc.reverse, cs) else splitAtSlash cs (c :: acc)

/-- Byte-wise `and` of an address with a mask (`IP.Mask` for equal
lengths, the only case arising from `ParseCIDR`). -/
def maskBytes (a m : List Nat) : List Nat := List.zipWith (· &&& ·) a m

/-- `net.ParseCIDR`: parse `addr/prefix`; the network address is stored
masked; an IPv4 `addr` yields a 4-byte network (`Addr.AsSlice`), an IPv6
one a 16-byte network.  `none` models the `ParseError` return. -/
def goParseCIDR (s : String) : Option IPNet :=
  match splitAtSlash s.data [] with
  | none => none
  | some (addr, maskStr) =>
    match classify addr with
    | some true =>
      match parseIPv4Fields addr 0 0 0 [] with
      | none => none
      | some bytes =>
        match dtoiFull maskStr with
        | none => none
        | some n =>
          if 32 < n then none
          else
            let m := cidrMask 4 n
            some ⟨maskBytes bytes m, m⟩
    | some false =>
      match parseIPv6Chars addr with
      | none => none
      | some bytes =>
        match dtoiFull maskStr with
        | none => none
        | some n =>
          if 128 < n then none
          else
            let m := cidrMask 16 n
            some ⟨maskBytes bytes m, m⟩
    | none => none

/-- The repository's `parseCIDR` helper: `net.ParseCIDR` with
`log.Fatalf` on failure.  The abort is modelled by a default value that
is never reached for the fixed tables (proved with claim C7). -/
def parseCIDR (cidr : String) : IPNet := (goParseCIDR cidr).getD ⟨[], []⟩

/-- `IPNet.Contains` step 1, `networkNumberAndMask`: normalise the
network address via `To4` and align a 16-byte mask with a 4-byte
network. -/
def networkNumberAndMask (n : IPNet) : Option (List Nat × List Nat) :=
  let ipo : Option (List Nat) :=
    match to4 n.ip with
    | some x => some x
    | none => if n.ip.length = 16 then some n.ip else none
  match ipo with
  | none => none
  | some nn =>
    if n.mask.length = 4 then
      if nn.length = 4 then some (nn, n.mask) else none
    else if n.mask.length = 16 then
      if nn.length = 4 then some (nn, n.mask.drop 12) else some (nn, n.mask)
    else none

/-- `IPNet.Contains`: convert the queried IP via `To4` if possible, then
compare masked bytes; any length mismatch (including a `nil` network
number) gives `false`. -/
def ipnetContains (n : IPNet) (parsedIP : List Nat) : Bool :=
  match networkNumberAndMask n with
  | none => false
  | some (nn, m) =>
    let ip := match to4 parsedIP with | some x => x | none => parsedIP
    if ip.length = nn.length then
      (List.zip (List.zip nn m) ip).all
        (fun t => (t.1.1 &&& t.1.2) == (t.2 &&& t.1.2))
    else false

/-! ### The `ip` package of the repository -/

/-- Header priority order for IP detection (`headerPriority`). -/
def headerPriority : List String :=
  ["CF-Connecting-IP",      -- Cloudflare
   "True-Client-IP",        -- Cloudflare Enterprise
   "X-Real-IP",             -- nginx proxy/FastCGI
   "X-Forwarded-For",       -- Standard proxy header
   "X-Client-IP",           -- Apache mod_proxy_http
   "X-Cluster-Client-IP",   -- Cluster environments
   "X-Forwarded",           -- Less common
   "Forwarded-For",         -- Less common
   "Forwarded"]             -- Less common

/-- Private IP ranges (IPv4): RFC 1918, RFC 3927, RFC 5735. -/
def privateIPRanges : List IPNet :=
  [parseCIDR "10.0.0.0/8",
   parseCIDR "172.16.0.0/12",
   parseCIDR "192.168.0.0/16",
   parseCIDR "169.254.0.0/16",
   parseCIDR "127.0.0.0/8"]

/-- Private IPv6 ranges: RFC 4193 ULA, RFC 4291 link-local and loopback. -/
def privateIPv6Ranges : List IPNet :=
  [parseCIDR "fc00::/7",
   parseCIDR "fe80::/10",
   parseCIDR "::1/128"]

/-- The Request Context: the ordered header (name, value) pairs (a name
may repeat — Go's `http.Header` keeps all values, `Get` returns the
first) and the raw `RemoteAddr` string.  Header names are taken in their
canonical spelling, matching the constants the package queries. -/
structure GoRequest where
  headers : List (String × String)
  remoteAddr : String

/-- `r.Header.Get(name)`: first value stored under `name`, `""` when the
header is absent. -/
def headerGet (r : GoRequest) (name : String) : String :=
  match r.headers.find? (fun p => p.1 == name) with
  | some p => p.2
  | none => ""

/-- `IsValid`: `net.ParseIP(ip) != nil`. -/
def IsValid (ip : String) : Bool := (goParseIP ip).isSome

/-- `IsPrivate`: parse, pick the family by `To4`, and test the fixed
range table of that family. -/
def IsPrivate (ip : String) : Bool :=
  if ip = "" then false
  else
    match goParseIP ip with
    | none => false
    | some parsedIP =>
      if (to4 parsedIP).isSome then
        privateIPRanges.any (fun r => ipnetContains r parsedIP)
      else
        privateIPv6Ranges.any (fun r => ipnetContains r parsedIP)

/-- `IsCloudflareRequest`: any of the three Cloudflare headers present
with a non-empty value. -/
def IsCloudflareRequest (r : GoRequest) : Bool :=
  headerGet r "CF-Connecting-IP" != "" ||
  headerGet r "CF-Ray" != "" ||
  headerGet r "True-Client-IP" != ""

/-- The inner loop of `ExtractClientIP`: first comma-separated piece
that, after trimming, is a valid IP. -/
def firstValidIn : List (List Char) → Option String
  | [] => none
  | p :: ps =>
    if IsValid (trimSpace ⟨p⟩) then some (trimSpace ⟨p⟩) else firstValidIn ps

/-- The header scan shared by `ExtractClientIP`: walk the priority list,
skip empty headers, return the first valid candidate with its header. -/
def scanHeaders (get : String → String) : List String → Option (String × String)
  | [] => none
  | h :: rest =>
    if get h = "" then scanHeaders get rest
    else
      match firstValidIn (splitComma (get h).data) with
      | some ip => some (ip, h)
      | none => scanHeaders get rest

/-- `ExtractClientIP`: priority-header scan, then the `RemoteAddr`
fallback (the raw string verbatim when `SplitHostPort` fails). -/
def ExtractClientIP (r : GoRequest) : String × String :=
  match scanHeaders (headerGet r) headerPriority with
  | some (ip, h) => (ip, h)
  | none =>
    match splitHostPort r.remoteAddr with
    | none => (r.remoteAddr, "RemoteAddr")
    | some (host, _) => (host, "RemoteAddr")

/-- The inner loop of `FindIPv4`/`FindIPv6` (`want4 = true` for IPv4):
first trimmed piece that is valid and whose parsed form matches the
requested family (`To4() != nil` vs `To4() == nil`). -/
def firstFamilyIn (want4 : Bool) : List (List Char) → Option String
  | [] => none
  | p :: ps =>
    if IsValid (trimSpace ⟨p⟩) then
      match goParseIP (trimSpace ⟨p⟩) with
      | some parsed =>
        if (to4 parsed).isSome = want4 then some (trimSpace ⟨p⟩)
        else firstFamilyIn want4 ps
      | none => firstFamilyIn want4 ps
    else firstFamilyIn want4 ps

/-- The header scan shared by `FindIPv4`/`FindIPv6`. -/
def scanFamily (want4 : Bool) (get : String → String) : List String → Option String
  | [] => none
  | h :: rest =>
    if get h = "" then scanFamily want4 get rest
    else
      match firstFamilyIn want4 (splitComma (get h).data) with
      | some ip => some ip
      | none => scanFamily want4 get rest

/-- The `RemoteAddr` fallback host of `FindIPv4`/`FindIPv6`: the split
host, or the raw `RemoteAddr` when splitting fails. -/
def fallbackHost (remote : String) : String :=
  match splitHostPort remote with
  | none => remote
  | some (host, _) => host

/-- `FindIPv4`: family scan, then the fallback host if it is a valid
IPv4 address, else `""`. -/
def FindIPv4 (r : GoRequest) : String :=
  match scanFamily true (headerGet r) headerPriority with
  | some ip => ip
  | none =>
    if IsValid (fallbackHost r.remoteAddr) then
      match goParseIP (fallbackHost r.remoteAddr) with
      | some parsed => if (to4 parsed).isSome then fallbackHost r.remoteAddr else ""
      | none => ""
    else ""

/-- `FindIPv6`: family scan, then the fallback host if it is a valid
non-IPv4 address, else `""`. -/
def FindIPv6 (r : GoRequest) : String :=
  match scanFamily false (headerGet r) headerPriority with
  | some ip => ip
  | none =>
    if IsValid (fallbackHost r.remoteAddr) then
      match goParseIP (fallbackHost r.remoteAddr) with
      | some parsed => if (to4 parsed).isSome then "" else fallbackHost r.remoteAddr
      | none => ""
    else ""

/-- The seen-set loop of `RemoveDuplicates` (the Go `map[string]bool`
is the membership of the `seen` list). -/
def dedupSeen (seen : List String) : List String → List String
  | [] => []
  | x :: xs =>
    if seen.contains x then dedupSeen seen xs
    else x :: dedupSeen (x :: seen) xs

/-- `RemoveDuplicates` on a Go `[]string`: `none` is the nil slice,
`some l` a non-nil slice.  `len(slice) == 0` returns the input slice
itself, so nil-ness is preserved. -/
def RemoveDuplicates : Option (List String) → Option (List String)
  | none => none
  | some [] => some []
  | some (x :: xs) => some (dedupSeen [] (x :: xs))

/-- `models.IPInfo`. -/
structure IPInfo where
  ClientIP : String
  DetectedVia : String
  IPv4Address : String
  IPv6Address : String
  IsPrivateIP : Bool
  IsCloudflare : Bool
  UserAgent : String
  Timestamp : String
deriving DecidableEq

/-- `GetInfo`: aggregate the core operations into an `IPInfo`.  The
`time.Now().UTC().Format(time.RFC3339)` effect is passed in as `now`. -/
def GetInfo (r : GoRequest) (now : String) : IPInfo :=
  { ClientIP := (ExtractClientIP r).1
    DetectedVia := (ExtractClientIP r).2
    IPv4Address := FindIPv4 r
    IPv6Address := FindIPv6 r
    IsPrivateIP := IsPrivate (ExtractClientIP r).1
    IsCloudflare := IsCloudflareRequest r
    UserAgent := headerGet r "User-Agent"
    Timestamp := now }


/-! ## Lemmas

### Characters that no valid IP address can contain

`okChar` bounds the characters a successful `net.ParseIP` can consume:
hex digits, `'.'` and `':'`.  Commas and White_Space characters are not
`okChar`, which is what makes the comma-splitting and trimming of the
header scan invisible on single-address header values. -/

/-- The only characters `net.ParseIP` can consume. -/
def okChar (c : Char) : Bool := isHexGo c || c == '.' || c == ':'

/-- The string parses and the parsed address has a 4-byte form — the
IPv4-family test the repo applies (`parsedIP != nil && parsedIP.To4() != nil`). -/
def isIPv4Str (s : String) : Bool :=
  match goParseIP s with
  | some b => (to4 b).isSome
  | none => false

/-- The string parses and the parsed address has no 4-byte form — the
IPv6-family test the repo applies (`parsedIP != nil && parsedIP.To4() == nil`). -/
def isIPv6Str (s : String) : Bool :=
  match goParseIP s with
  | some b => !(to4 b).isSome
  | none => false

/-- The spec's reading of `RemoveDuplicates`: walk the list, appending
each item not seen before (first occurrence kept, order preserved). -/
def dedupFoldSpec (l : List String) : List String :=
  l.foldl (fun acc x => if acc.contains x then acc else acc ++ [x]) []

theorem char_eq_of_toNat_eq {c d : Char} (h : c.toNat = d.toNat) : c = d := by
  have h2 := congrArg Char.ofNat h
  rwa [Char.ofNat_toNat, Char.ofNat_toNat] at h2

theorem okChar_toNat_facts {c : Char} (h : okChar c = true) :
    (48 ≤ c.toNat ∧ c.toNat ≤ 57) ∨ (97 ≤ c.toNat ∧ c.toNat ≤ 102) ∨
    (65 ≤ c.toNat ∧ c.toNat ≤ 70) ∨ c.toNat = 46 ∨ c.toNat = 58 := by
  simp only [okChar, isHexGo, isDigitGo, isLowerHex, isUpperHex, Bool.or_eq_true,
    Bool.and_eq_true, decide_eq_true_eq, beq_iff_eq] at h
  rcases h with ((((h | h) | h) | h) | h)
  · exact Or.inl h
  · exact Or.inr (Or.inl h)
  · exact Or.inr (Or.inr (Or.inl h))
  · subst h; exact Or.inr (Or.inr (Or.inr (Or.inl rfl)))
  · subst h; exact Or.inr (Or.inr (Or.inr (Or.inr rfl)))

theorem goIsSpace_not_okChar {c : Char} (h : goIsSpace c = true) : okChar c = false := by
  by_cases hok : okChar c = true
  · exfalso
    have hf := okChar_toNat_facts hok
    have hs : c.toNat ∈ ([9, 10, 11, 12, 13, 32, 133, 160, 5760, 8192, 8193, 8194,
        8195, 8196, 8197, 8198, 8199, 8200, 8201, 8202, 8232, 8233, 8239, 8287,
        12288] : List Nat) := by
      simpa [goIsSpace, List.contains] using h
    simp only [List.mem_cons, List.not_mem_nil, or_false] at hs
    omega
  · exact Bool.eq_false_iff.mpr hok

theorem isDigitGo_false_of_isHexGo_false {c : Char} (hx : isHexGo c = false) :
    isDigitGo c = false := by
  cases h : isDigitGo c
  · rfl
  · rw [isHexGo, h] at hx; simp at hx

/-- A character that is not a digit and not a dot anywhere in the input
makes the IPv4 field parser fail. -/
theorem parseIPv4Fields_badchar {c : Char} (hd : isDigitGo c = false) (hdot : c ≠ '.') :
    ∀ (s : List Char) (val digLen pos : Nat) (fields : List Nat),
      c ∈ s → parseIPv4Fields s val digLen pos fields = none := by
  intro s
  induction s with
  | nil => intro _ _ _ _ hm; cases hm
  | cons x xs ih =>
    intro val digLen pos fields hm
    rcases List.mem_cons.mp hm with rfl | hm2
    · simp only [parseIPv4Fields]
      rw [if_neg (by simp [hd]), if_neg hdot]
    · simp only [parseIPv4Fields]
      split
      · split
        · rfl
        · split
          · rfl
          · exact ih _ _ _ _ hm2
      · split
        · split
          · rfl
          · split
            · rfl
            · exact ih _ _ _ _ hm2
        · rfl

/-- `takeHex` only consumes hex digits: a non-hex character survives
into the rest. -/
theorem takeHex_badchar {c : Char} (hx : isHexGo c = false) :
    ∀ (s : List Char) (a n : Nat) (r : Nat × Nat × List Char),
      c ∈ s → takeHex s a n = some r → c ∈ r.2.2 := by
  intro s
  induction s with
  | nil => intro _ _ _ hm; cases hm
  | cons x xs ih =>
    intro a n r hm heq
    simp only [takeHex] at heq
    rcases List.mem_cons.mp hm with rfl | hm2
    · rw [if_neg (by simp [hx])] at heq
      cases heq; exact List.mem_cons_self _ _
    · by_cases hxx : isHexGo x = true
      · rw [if_pos hxx] at heq
        split at heq
        · cases heq
        · exact ih _ _ _ hm2 heq
      · rw [if_neg (by simp [Bool.eq_false_iff.mpr hxx])] at heq
        cases heq; exact List.mem_cons_of_mem _ hm2

/-- A character that is neither a hex digit nor `':'` nor `'.'` can
never be consumed by the IPv6 group loop: it survives into the
remaining-input component of a successful loop exit. -/
theorem v6loop_badchar {c : Char} (hx : isHexGo c = false) (hc : c ≠ ':') (hd : c ≠ '.') :
    ∀ (fuel : Nat) (s : List Char) (i : Nat) (acc : List Nat) (ell : Option Nat)
      (r : List Nat × Nat × Option Nat × List Char),
      c ∈ s → v6loop fuel s i acc ell = some r → c ∈ r.2.2.2 := by
  intro fuel
  induction fuel with
  | zero => intro s i acc ell r _ heq; cases heq
  | succ fuel ih =>
    intro s i acc ell r hm heq
    simp only [v6loop] at heq
    split at heq
    · cases heq; exact hm
    · cases htake : takeHex s 0 0 with
      | none => rw [htake] at heq; cases heq
      | some t =>
        obtain ⟨g, off, rest⟩ := t
        rw [htake] at heq
        dsimp only at heq
        have hrest : c ∈ rest := takeHex_badchar hx s 0 0 (g, off, rest) hm htake
        by_cases hoff : off = 0
        · rw [if_pos hoff] at heq; cases heq
        · rw [if_neg hoff] at heq
          by_cases hdotb : rest.head? = some '.'
          · rw [if_pos hdotb] at heq
            rw [parseIPv4Fields_badchar (isDigitGo_false_of_isHexGo_false hx) hd
              s 0 0 0 [] hm] at heq
            by_cases h1 : ell = none ∧ i ≠ 12
            · rw [if_pos h1] at heq; cases heq
            · rw [if_neg h1] at heq
              by_cases h2 : 16 < i + 4
              · rw [if_pos h2] at heq; cases heq
              · rw [if_neg h2] at heq; cases heq
          · rw [if_neg hdotb] at heq
            cases rest with
            | nil => cases hrest
            | cons x rest2 =>
              dsimp only at heq
              rcases List.mem_cons.mp hrest with rfl | hm2
              · rw [if_neg hc] at heq; cases heq
              · by_cases hxc : x = ':'
                · rw [if_pos hxc] at heq
                  cases rest2 with
                  | nil => cases heq
                  | cons c2 rest3 =>
                    dsimp only at heq
                    by_cases hc2 : c2 = ':'
                    · rw [if_pos hc2] at heq
                      cases ell with
                      | some e => dsimp only at heq; cases heq
                      | none =>
                        dsimp only at heq
                        have hm3 : c ∈ rest3 := by
                          rcases List.mem_cons.mp hm2 with rfl | hm3
                          · exact absurd hc2 hc
                          · exact hm3
                        cases rest3 with
                        | nil => cases hm3
                        | cons y t =>
                          dsimp only at heq
                          exact ih _ _ _ _ _ hm3 heq
                    · rw [if_neg hc2] at heq
                      exact ih _ _ _ _ _ hm2 heq
                · rw [if_neg hxc] at heq; cases heq

theorem startsDoubleColon_shape {s : List Char} (h : startsDoubleColon s = true) :
    ∃ rest, s = ':' :: ':' :: rest := by
  cases s with
  | nil => cases h
  | cons a t =>
    cases t with
    | nil => cases h
    | cons b u =>
      simp only [startsDoubleColon, Bool.and_eq_true, decide_eq_true_eq] at h
      exact ⟨u, by rw [h.1, h.2]⟩

theorem parseIPv6Chars_badchar {c : Char} (hx : isHexGo c = false) (hc : c ≠ ':')
    (hd : c ≠ '.') (s : List Char) (hm : c ∈ s) : parseIPv6Chars s = none := by
  have hfin : ∀ (s2 : List Char) (e : Option Nat), c ∈ s2 →
      v6finish (v6loop 16 s2 0 [] e) = none := by
    intro s2 e hm2
    cases hv : v6loop 16 s2 0 [] e with
    | none => rfl
    | some r =>
      obtain ⟨acc, i, ell, srem⟩ := r
      have hsr : c ∈ srem := v6loop_badchar hx hc hd 16 s2 0 [] e _ hm2 hv
      have hne : srem ≠ [] := by intro h0; rw [h0] at hsr; cases hsr
      simp [v6finish, hne]
  simp only [parseIPv6Chars]
  split
  · rfl
  · split
    · rename_i hsd
      obtain ⟨rest, rfl⟩ := startsDoubleColon_shape hsd
      have hm2 : c ∈ rest := by
        rcases List.mem_cons.mp hm with rfl | h2
        · exact absurd rfl hc
        · rcases List.mem_cons.mp h2 with rfl | h3
          · exact absurd rfl hc
          · exact h3
      split
      · rename_i hemp
        have h0 : rest = [] := by simpa using hemp
        rw [h0] at hm2; cases hm2
      · exact hfin rest _ hm2
    · exact hfin s _ hm

/-- Any string containing a character outside `okChar` is rejected by
`net.ParseIP`. -/
theorem goParseIP_badchar {c : Char} {s : String} (hok : okChar c = false)
    (hm : c ∈ s.data) : goParseIP s = none := by
  have hx : isHexGo c = false := by
    cases h : isHexGo c
    · rfl
    · rw [okChar, h] at hok; simp at hok
  have hdot : c ≠ '.' := by
    intro h; rw [h] at hok; exact absurd hok (by decide)
  have hcol : c ≠ ':' := by
    intro h; rw [h] at hok; exact absurd hok (by decide)
  cases hcl : classify s.data with
  | none => simp [goParseIP, hcl]
  | some b =>
    cases b with
    | false =>
      simp only [goParseIP, hcl]
      exact parseIPv6Chars_badchar hx hcol hdot s.data hm
    | true =>
      simp only [goParseIP, hcl]
      rw [parseIPv4Fields_badchar (isDigitGo_false_of_isHexGo_false hx) hdot
        s.data 0 0 0 [] hm]
      rfl

theorem IsValid_okChars {s : String} (h : IsValid s = true) :
    ∀ c ∈ s.data, okChar c = true := by
  intro c hc
  by_cases hok : okChar c = true
  · exact hok
  · exfalso
    have h2 := goParseIP_badchar (Bool.eq_false_iff.mpr hok) hc
    rw [IsValid, h2] at h
    cases h

theorem IsValid_no_comma {s : String} (h : IsValid s = true) : ',' ∉ s.data := by
  intro hm
  exact absurd (IsValid_okChars h ',' hm) (by decide)

theorem dropWhile_eq_self_of_all {p : Char → Bool} :
    ∀ s : List Char, (∀ c ∈ s, p c = false) → s.dropWhile p = s
  | [], _ => rfl
  | a :: l, h => by
    rw [List.dropWhile_cons_of_neg (by simp [h a (List.mem_cons_self a l)])]

theorem IsValid_trim_eq {s : String} (h : IsValid s = true) : trimSpace s = s := by
  have hns : ∀ c ∈ s.data, goIsSpace c = false := by
    intro c hc
    cases hsp : goIsSpace c
    · rfl
    · exact absurd (IsValid_okChars h c hc)
        (by rw [goIsSpace_not_okChar hsp]; exact Bool.false_ne_true)
  show (⟨trimSpaceChars s.data⟩ : String) = s
  have h1 : trimSpaceChars s.data = s.data := by
    rw [trimSpaceChars, dropWhile_eq_self_of_all _ hns,
      dropWhile_eq_self_of_all _ (fun c hc => hns c (List.mem_reverse.mp hc)),
      List.reverse_reverse]
  rw [h1]

theorem splitCommaAux_no_comma :
    ∀ (t cur : List Char), ',' ∉ t → splitCommaAux t cur = [cur.reverse ++ t] := by
  intro t
  induction t with
  | nil => intro cur _; simp [splitCommaAux]
  | cons a l ih =>
    intro cur hn
    rw [splitCommaAux.eq_2,
      if_neg (by rintro rfl; exact hn (List.mem_cons_self _ _)),
      ih (a :: cur) (fun hm => hn (List.mem_cons_of_mem _ hm))]
    simp

theorem splitComma_single {s : List Char} (h : ',' ∉ s) : splitComma s = [s] := by
  rw [splitComma]
  simpa using splitCommaAux_no_comma s [] h

theorem firstValidIn_valid {v : String} (h : IsValid v = true) :
    firstValidIn (splitComma v.data) = some v := by
  rw [splitComma_single (IsValid_no_comma h)]
  show (if IsValid (trimSpace v) then some (trimSpace v) else firstValidIn []) = some v
  rw [IsValid_trim_eq h, if_pos h]


/-! ### The header scan on single valid addresses -/

theorem scanHeaders_find {get : String → String} :
    ∀ L : List String, (∀ g ∈ L, get g ≠ "" → IsValid (get g) = true) →
      scanHeaders get L = (L.find? (fun g => get g != "")).map (fun h => (get h, h)) := by
  intro L
  induction L with
  | nil => intro _; rfl
  | cons h rest ih =>
    intro hv
    by_cases he : get h = ""
    · simp only [scanHeaders]
      rw [if_pos he, List.find?_cons_of_neg _ (by simp [he]),
        ih (fun g hg hne => hv g (List.mem_cons_of_mem _ hg) hne)]
    · simp only [scanHeaders]
      rw [if_neg he, firstValidIn_valid (hv h (List.mem_cons_self _ _) he),
        List.find?_cons_of_pos _ (by simp [bne_iff_ne, he])]
      rfl

theorem scanHeaders_all_empty {get : String → String} :
    ∀ L : List String, (∀ g ∈ L, get g = "") → scanHeaders get L = none := by
  intro L
  induction L with
  | nil => intro _; rfl
  | cons h rest ih =>
    intro he
    simp only [scanHeaders]
    rw [if_pos (he h (List.mem_cons_self _ _))]
    exact ih (fun g hg => he g (List.mem_cons_of_mem _ hg))

theorem firstFamilyIn_none_of_none {w : Bool} :
    ∀ ps, firstValidIn ps = none → firstFamilyIn w ps = none := by
  intro ps
  induction ps with
  | nil => intro _; rfl
  | cons p ps2 ih =>
    intro h
    simp only [firstValidIn] at h
    by_cases hv : IsValid (trimSpace ⟨p⟩) = true
    · rw [if_pos hv] at h; cases h
    · rw [if_neg hv] at h
      simp only [firstFamilyIn]
      rw [if_neg hv]
      exact ih h

theorem scanFamily_none {get : String → String} {w : Bool} :
    ∀ L, scanHeaders get L = none → scanFamily w get L = none := by
  intro L
  induction L with
  | nil => intro _; rfl
  | cons h rest ih =>
    intro hs
    simp only [scanHeaders] at hs
    simp only [scanFamily]
    by_cases he : get h = ""
    · rw [if_pos he] at hs; rw [if_pos he]; exact ih hs
    · rw [if_neg he] at hs; rw [if_neg he]
      cases hf : firstValidIn (splitComma (get h).data) with
      | some ip => rw [hf] at hs; cases hs
      | none =>
        rw [hf] at hs
        rw [firstFamilyIn_none_of_none _ hf]
        exact ih hs

theorem scanHeaders_congr {get get' : String → String} (hg : ∀ n, get n = get' n) :
    ∀ L, scanHeaders get L = scanHeaders get' L := by
  intro L
  induction L with
  | nil => rfl
  | cons h rest ih => simp only [scanHeaders, hg h, ih]

theorem scanFamily_congr {w : Bool} {get get' : String → String}
    (hg : ∀ n, get n = get' n) :
    ∀ L, scanFamily w get L = scanFamily w get' L := by
  intro L
  induction L with
  | nil => rfl
  | cons h rest ih => simp only [scanFamily, hg h, ih]

/-! ### What the family scans return -/

theorem firstFamilyIn_spec {w : Bool} :
    ∀ ps ip, firstFamilyIn w ps = some ip →
      ∃ b, goParseIP ip = some b ∧ (to4 b).isSome = w := by
  intro ps
  induction ps with
  | nil => intro ip h; cases h
  | cons p ps2 ih =>
    intro ip h
    simp only [firstFamilyIn] at h
    by_cases hv : IsValid (trimSpace ⟨p⟩) = true
    · rw [if_pos hv] at h
      cases hp : goParseIP (trimSpace ⟨p⟩) with
      | none => rw [hp] at h; exact ih _ h
      | some parsed =>
        rw [hp] at h
        dsimp only at h
        by_cases hw : (to4 parsed).isSome = w
        · rw [if_pos hw] at h
          cases h
          exact ⟨parsed, hp, hw⟩
        · rw [if_neg hw] at h
          exact ih _ h
    · rw [if_neg hv] at h
      exact ih _ h

theorem scanFamily_spec {w : Bool} {get : String → String} :
    ∀ L ip, scanFamily w get L = some ip →
      ∃ b, goParseIP ip = some b ∧ (to4 b).isSome = w := by
  intro L
  induction L with
  | nil => intro ip h; cases h
  | cons h rest ih =>
    intro ip hs
    simp only [scanFamily] at hs
    by_cases he : get h = ""
    · rw [if_pos he] at hs; exact ih _ hs
    · rw [if_neg he] at hs
      cases hf : firstFamilyIn w (splitComma (get h).data) with
      | some ip2 =>
        rw [hf] at hs
        cases hs
        exact firstFamilyIn_spec _ _ hf
      | none =>
        rw [hf] at hs
        exact ih _ hs

theorem IsPrivate_false_of_invalid {s : String} (h : IsValid s = false) :
    IsPrivate s = false := by
  rw [IsPrivate]
  by_cases he : s = ""
  · rw [if_pos he]
  · rw [if_neg he]
    cases hp : goParseIP s with
    | none => rfl
    | some b =>
      simp only [IsValid, hp] at h
      cases h

/-! ### `Header.Get` ignores all but the first value of a name -/

theorem find?_skip_key {n name : String} (hne : n ≠ name) (v : String) :
    ∀ (t h₂ : List (String × String)),
      List.find? (fun p => p.1 == n) (t ++ (name, v) :: h₂) =
      List.find? (fun p => p.1 == n) (t ++ h₂) := by
  intro t h₂
  induction t with
  | nil =>
    simp only [List.nil_append, List.find?]
    have hq : (name == n) = false := beq_eq_false_iff_ne.mpr (Ne.symm hne)
    rw [hq]
  | cons q t2 ih =>
    simp only [List.cons_append, List.find?]
    cases hq : (q.1 == n)
    · exact ih
    · rfl

theorem find?_dup_present {name v : String} :
    ∀ (h₁ h₂ : List (String × String)), (∃ p ∈ h₁, p.1 = name) →
      ∀ n, List.find? (fun p => p.1 == n) (h₁ ++ (name, v) :: h₂) =
        List.find? (fun p => p.1 == n) (h₁ ++ h₂) := by
  intro h₁
  induction h₁ with
  | nil => intro h₂ hex n; obtain ⟨p, hp, _⟩ := hex; cases hp
  | cons q t ih =>
    intro h₂ hex n
    simp only [List.cons_append, List.find?]
    cases hq : (q.1 == n)
    · show List.find? (fun p => p.1 == n) (t ++ (name, v) :: h₂) =
        List.find? (fun p => p.1 == n) (t ++ h₂)
      by_cases hn : n = name
      · subst hn
        obtain ⟨p, hp, hpname⟩ := hex
        rcases List.mem_cons.mp hp with rfl | hpt
        · exfalso; rw [hpname] at hq; simp at hq
        · exact ih h₂ ⟨p, hpt, hpname⟩ n
      · exact find?_skip_key hn v t h₂
    · rfl

theorem headerGet_drop_dup {h₁ h₂ : List (String × String)} {name v remote : String}
    (hp : ∃ p ∈ h₁, p.1 = name) (n : String) :
    headerGet ⟨h₁ ++ (name, v) :: h₂, remote⟩ n = headerGet ⟨h₁ ++ h₂, remote⟩ n := by
  simp only [headerGet]
  rw [find?_dup_present h₁ h₂ hp n]

/-! ### `RemoveDuplicates` -/

theorem mem_dedupSeen : ∀ (l seen : List String) (x : String),
    x ∈ dedupSeen seen l ↔ x ∈ l ∧ x ∉ seen := by
  intro l
  induction l with
  | nil => intro seen x; simp [dedupSeen]
  | cons a t ih =>
    intro seen x
    simp only [dedupSeen]
    by_cases ha : seen.contains a = true
    · rw [if_pos ha, ih]
      have haa : a ∈ seen := by simpa [List.contains] using ha
      constructor
      · rintro ⟨hx, hns⟩; exact ⟨List.mem_cons_of_mem _ hx, hns⟩
      · rintro ⟨hx, hns⟩
        rcases List.mem_cons.mp hx with rfl | hx2
        · exact absurd haa hns
        · exact ⟨hx2, hns⟩
    · rw [if_neg ha]
      constructor
      · intro hx
        rcases List.mem_cons.mp hx with rfl | hx2
        · refine ⟨List.mem_cons_self _ _, ?_⟩
          intro hxs
          exact ha (by simpa [List.contains] using hxs)
        · obtain ⟨h1, h2⟩ := (ih (a :: seen) x).mp hx2
          refine ⟨List.mem_cons_of_mem _ h1, ?_⟩
          intro hxs; exact h2 (List.mem_cons_of_mem _ hxs)
      · rintro ⟨hx, hns⟩
        rcases List.mem_cons.mp hx with rfl | hx2
        · exact List.mem_cons_self _ _
        · by_cases hxa : x = a
          · subst hxa; exact List.mem_cons_self _ _
          · exact List.mem_cons_of_mem _
              ((ih (a :: seen) x).mpr ⟨hx2, by simp [List.mem_cons, hxa, hns]⟩)

theorem dedupSeen_nodup : ∀ (l seen : List String), (dedupSeen seen l).Nodup := by
  intro l
  induction l with
  | nil => intro seen; simp [dedupSeen]
  | cons a t ih =>
    intro seen
    simp only [dedupSeen]
    split
    · exact ih seen
    · refine List.nodup_cons.mpr ⟨?_, ih (a :: seen)⟩
      intro hmem
      exact ((mem_dedupSeen t (a :: seen) a).mp hmem).2 (List.mem_cons_self _ _)

theorem dedupSeen_sublist : ∀ (l seen : List String), (dedupSeen seen l).Sublist l := by
  intro l
  induction l with
  | nil => intro seen; simp [dedupSeen]
  | cons a t ih =>
    intro seen
    simp only [dedupSeen]
    split
    · exact (ih seen).trans (List.sublist_cons_self a t)
    · exact List.Sublist.cons₂ a (ih (a :: seen))

theorem dedupSeen_eq_self : ∀ (l seen : List String), l.Nodup →
    (∀ x ∈ l, x ∉ seen) → dedupSeen seen l = l := by
  intro l
  induction l with
  | nil => intro seen _ _; rfl
  | cons a t ih =>
    intro seen hnd hdis
    have h2 : ∀ x ∈ t, x ∉ a :: seen := by
      intro x hx hxa
      rcases List.mem_cons.mp hxa with rfl | hxs
      · exact (List.nodup_cons.mp hnd).1 hx
      · exact hdis x (List.mem_cons_of_mem _ hx) hxs
    simp only [dedupSeen]
    rw [if_neg (fun hc => hdis a (List.mem_cons_self _ _)
        (by simpa [List.contains] using hc)),
      ih (a :: seen) (List.nodup_cons.mp hnd).2 h2]

theorem RemoveDuplicates_of_nodup {l : List String} (h : l.Nodup) :
    RemoveDuplicates (some l) = some l := by
  cases l with
  | nil => rfl
  | cons a t =>
    simp only [RemoveDuplicates]
    rw [dedupSeen_eq_self (a :: t) [] h (by simp)]

theorem RemoveDuplicates_idem :
    ∀ s, RemoveDuplicates (RemoveDuplicates s) = RemoveDuplicates s := by
  intro s
  match s with
  | none => rfl
  | some [] => rfl
  | some (a :: t) =>
    have h1 : RemoveDuplicates (some (a :: t)) = some (dedupSeen [] (a :: t)) := rfl
    rw [h1]
    exact RemoveDuplicates_of_nodup (dedupSeen_nodup (a :: t) [])

theorem dedupSeen_congr : ∀ (l s₁ s₂ : List String), (∀ x, x ∈ s₁ ↔ x ∈ s₂) →
    dedupSeen s₁ l = dedupSeen s₂ l := by
  intro l
  induction l with
  | nil => intro _ _ _; rfl
  | cons a t ih =>
    intro s₁ s₂ hiff
    have hc : s₁.contains a = true ↔ s₂.contains a = true := by
      simpa [List.contains] using hiff a
    simp only [dedupSeen]
    by_cases h1 : s₁.contains a = true
    · rw [if_pos h1, if_pos (hc.mp h1), ih _ _ hiff]
    · rw [if_neg h1, if_neg (fun h2 => h1 (hc.mpr h2))]
      rw [ih (a :: s₁) (a :: s₂) ?_]
      intro x
      rw [List.mem_cons, List.mem_cons, hiff x]

theorem foldl_dedupSeen : ∀ (l acc : List String),
    List.foldl (fun acc x => if acc.contains x then acc else acc ++ [x]) acc l =
      acc ++ dedupSeen acc l := by
  intro l
  induction l with
  | nil => intro acc; simp [dedupSeen]
  | cons a t ih =>
    intro acc
    simp only [List.foldl_cons, dedupSeen]
    by_cases h1 : acc.contains a = true
    · rw [if_pos h1, if_pos h1, ih]
    · rw [if_neg h1, if_neg h1, ih,
        dedupSeen_congr t (acc ++ [a]) (a :: acc)
          (by intro x; simp [List.mem_append, List.mem_cons, or_comm])]
      simp

theorem RemoveDuplicates_eq_foldSpec :
    ∀ l : List String, RemoveDuplicates (some l) = some (dedupFoldSpec l) := by
  intro l
  cases l with
  | nil => rfl
  | cons a t =>
    simp only [RemoveDuplicates, dedupFoldSpec]
    rw [foldl_dedupSeen]
    simp


/-! ## Claims -/

/-- C1: for every Request Context whose set priority headers each hold a
single syntactically valid address, two or more of them set to different
valid addresses, `ExtractClientIP` returns the address supplied by the
header that appears earliest in the fixed Priority Table (the first set
one found by the scan), and `via` equals that header's name. -/
theorem claim_C1_precedence (r : GoRequest) (h : String)
    (hvalid : ∀ g ∈ headerPriority, headerGet r g ≠ "" → IsValid (headerGet r g) = true)
    (_htwo : ∃ g₁ g₂, g₁ ∈ headerPriority ∧ g₂ ∈ headerPriority ∧ g₁ ≠ g₂ ∧
      headerGet r g₁ ≠ "" ∧ headerGet r g₂ ≠ "" ∧ headerGet r g₁ ≠ headerGet r g₂)
    (hfirst : headerPriority.find? (fun g => headerGet r g != "") = some h) :
    ExtractClientIP r = (headerGet r h, h) := by
  simp only [ExtractClientIP]
  rw [scanHeaders_find headerPriority hvalid, hfirst]
  rfl

theorem claim_C1_precedence_witness :
    ExtractClientIP ⟨[("CF-Connecting-IP", "203.0.113.1"),
      ("X-Forwarded-For", "203.0.113.2")], "198.51.100.7:443"⟩ =
      ("203.0.113.1", "CF-Connecting-IP") :=
  claim_C1_precedence
    ⟨[("CF-Connecting-IP", "203.0.113.1"), ("X-Forwarded-For", "203.0.113.2")],
      "198.51.100.7:443"⟩
    "CF-Connecting-IP"
    (by decide)
    ⟨"CF-Connecting-IP", "X-Forwarded-For", by decide, by decide, by decide,
      by decide, by decide, by decide⟩
    (by decide)

/-- C2: within one header value the scan splits on commas, trims each
piece, and returns the first syntactically valid piece; with the three
higher-priority headers unset and
`X-Forwarded-For: "invalid, 203.0.113.1, 192.168.1.1"`,
`ExtractClientIP` returns `("203.0.113.1", "X-Forwarded-For")`, skipping
the invalid leading token. -/
theorem claim_C2_first_valid_entry (r : GoRequest)
    (h1 : headerGet r "CF-Connecting-IP" = "")
    (h2 : headerGet r "True-Client-IP" = "")
    (h3 : headerGet r "X-Real-IP" = "")
    (h4 : headerGet r "X-Forwarded-For" = "invalid, 203.0.113.1, 192.168.1.1") :
    ExtractClientIP r = ("203.0.113.1", "X-Forwarded-For") := by
  have hfv : firstValidIn
      (splitComma ("invalid, 203.0.113.1, 192.168.1.1" : String).data) =
      some "203.0.113.1" := by decide
  have hscan : scanHeaders (headerGet r) headerPriority =
      some ("203.0.113.1", "X-Forwarded-For") := by
    simp only [headerPriority, scanHeaders]
    rw [if_pos h1, if_pos h2, if_pos h3, if_neg (by rw [h4]; decide), h4, hfv]
  simp only [ExtractClientIP]
  rw [hscan]

theorem claim_C2_first_valid_entry_witness :
    ExtractClientIP ⟨[("X-Forwarded-For", "invalid, 203.0.113.1, 192.168.1.1")],
      "10.0.0.1:80"⟩ = ("203.0.113.1", "X-Forwarded-For") :=
  claim_C2_first_valid_entry _ (by decide) (by decide) (by decide) (by decide)

/-- C3: when no priority header yields a valid candidate,
`ExtractClientIP` returns the split host — or the raw peer string when
`SplitHostPort` fails — labelled "RemoteAddr", with no validity check;
`FindIPv4`/`FindIPv6` accept the same fallback host only when it is valid
AND of the matching family, returning `""` otherwise. -/
theorem claim_C3_fallback_asymmetry (r : GoRequest)
    (hnone : scanHeaders (headerGet r) headerPriority = none) :
    ExtractClientIP r = (fallbackHost r.remoteAddr, "RemoteAddr") ∧
    FindIPv4 r = (if IsValid (fallbackHost r.remoteAddr) &&
        isIPv4Str (fallbackHost r.remoteAddr)
      then fallbackHost r.remoteAddr else "") ∧
    FindIPv6 r = (if IsValid (fallbackHost r.remoteAddr) &&
        isIPv6Str (fallbackHost r.remoteAddr)
      then fallbackHost r.remoteAddr else "") := by
  refine ⟨?_, ?_, ?_⟩
  · simp only [ExtractClientIP, fallbackHost]
    rw [hnone]
    cases splitHostPort r.remoteAddr with
    | none => rfl
    | some hp => rfl
  · simp only [FindIPv4]
    rw [scanFamily_none headerPriority hnone]
    by_cases hv : IsValid (fallbackHost r.remoteAddr) = true
    · rw [if_pos hv]
      cases hp : goParseIP (fallbackHost r.remoteAddr) with
      | none => simp [IsValid, hp] at hv
      | some b =>
        have hi : isIPv4Str (fallbackHost r.remoteAddr) = (to4 b).isSome := by
          simp [isIPv4Str, hp]
        rw [hv, hi]
        cases ht : (to4 b).isSome <;> simp [ht]
    · have hvf := Bool.eq_false_iff.mpr hv
      rw [if_neg hv, hvf]
      simp
  · simp only [FindIPv6]
    rw [scanFamily_none headerPriority hnone]
    by_cases hv : IsValid (fallbackHost r.remoteAddr) = true
    · rw [if_pos hv]
      cases hp : goParseIP (fallbackHost r.remoteAddr) with
      | none => simp [IsValid, hp] at hv
      | some b =>
        have hi : isIPv6Str (fallbackHost r.remoteAddr) = !(to4 b).isSome := by
          simp [isIPv6Str, hp]
        rw [hv, hi]
        cases ht : (to4 b).isSome <;> simp [ht]
    · have hvf := Bool.eq_false_iff.mpr hv
      rw [if_neg hv, hvf]
      simp

theorem claim_C3_fallback_asymmetry_witness :
    ExtractClientIP ⟨[], "malformed-addr"⟩ = ("malformed-addr", "RemoteAddr") ∧
    FindIPv4 ⟨[], "malformed-addr"⟩ = "" ∧
    FindIPv6 ⟨[], "malformed-addr"⟩ = "" := by
  have h := claim_C3_fallback_asymmetry ⟨[], "malformed-addr"⟩ (by decide)
  refine ⟨?_, ?_, ?_⟩
  · rw [h.1]; decide
  · rw [h.2.1]; decide
  · rw [h.2.2]; decide

/-- C4: family exclusivity — every non-empty `FindIPv4` result parses to
an address whose 4-byte form exists, every non-empty `FindIPv6` result
parses to one whose 4-byte form is nil; on
`X-Forwarded-For: "2001:db8::1, 203.0.113.1"` the two functions return
`"203.0.113.1"` and `"2001:db8::1"` respectively. -/
theorem claim_C4_family_exclusivity :
    (∀ r : GoRequest, FindIPv4 r ≠ "" →
      ∃ b, goParseIP (FindIPv4 r) = some b ∧ (to4 b).isSome = true) ∧
    (∀ r : GoRequest, FindIPv6 r ≠ "" →
      ∃ b, goParseIP (FindIPv6 r) = some b ∧ (to4 b).isSome = false) ∧
    FindIPv4 ⟨[("X-Forwarded-For", "2001:db8::1, 203.0.113.1")],
      "192.168.1.1:12345"⟩ = "203.0.113.1" ∧
    FindIPv6 ⟨[("X-Forwarded-For", "2001:db8::1, 203.0.113.1")],
      "192.168.1.1:12345"⟩ = "2001:db8::1" := by
  refine ⟨?_, ?_, by decide, by decide⟩
  · intro r hne
    cases hs : scanFamily true (headerGet r) headerPriority with
    | some ip =>
      have he : FindIPv4 r = ip := by simp [FindIPv4, hs]
      rw [he]
      exact scanFamily_spec _ _ hs
    | none =>
      simp only [FindIPv4, hs] at hne ⊢
      by_cases hv : IsValid (fallbackHost r.remoteAddr) = true
      · rw [if_pos hv] at hne ⊢
        cases hp : goParseIP (fallbackHost r.remoteAddr) with
        | none => simp [IsValid, hp] at hv
        | some b =>
          rw [hp] at hne
          dsimp only at hne ⊢
          by_cases hb : (to4 b).isSome = true
          · rw [if_pos hb] at hne ⊢
            exact ⟨b, hp, hb⟩
          · rw [if_neg hb] at hne
            exact absurd rfl hne
      · rw [if_neg hv] at hne
        exact absurd rfl hne
  · intro r hne
    cases hs : scanFamily false (headerGet r) headerPriority with
    | some ip =>
      have he : FindIPv6 r = ip := by simp [FindIPv6, hs]
      rw [he]
      exact scanFamily_spec _ _ hs
    | none =>
      simp only [FindIPv6, hs] at hne ⊢
      by_cases hv : IsValid (fallbackHost r.remoteAddr) = true
      · rw [if_pos hv] at hne ⊢
        cases hp : goParseIP (fallbackHost r.remoteAddr) with
        | none => simp [IsValid, hp] at hv
        | some b =>
          rw [hp] at hne
          dsimp only at hne ⊢
          by_cases hb : (to4 b).isSome = true
          · rw [if_pos hb] at hne
            exact absurd rfl hne
          · rw [if_neg hb] at hne ⊢
            exact ⟨b, hp, Bool.eq_false_iff.mpr hb⟩
      · rw [if_neg hv] at hne
        exact absurd rfl hne

theorem claim_C4_family_exclusivity_witness :
    ∃ b, goParseIP (FindIPv4 ⟨[("X-Forwarded-For", "2001:db8::1, 203.0.113.1")],
      "192.168.1.1:12345"⟩) = some b ∧ (to4 b).isSome = true :=
  claim_C4_family_exclusivity.1 _ (by decide)

/-- C5: `IsPrivate` decides exact CIDR-boundary membership over the fixed
tables, and returns false (not an error) on empty and unparsable input. -/
theorem claim_C5_isPrivate_boundaries :
    IsPrivate "172.16.0.0" = true ∧ IsPrivate "172.15.255.255" = false ∧
    IsPrivate "172.31.255.255" = true ∧ IsPrivate "172.32.0.0" = false ∧
    IsPrivate "::1" = true ∧ IsPrivate "fe80::" = true ∧
    IsPrivate "2001:db8::" = false ∧ IsPrivate "" = false ∧
    IsPrivate "not-an-ip" = false := by decide

/-- C6 (counterexample): the peer string "10.0.0.1" fails host:port
splitting, no priority header is set, yet `GetInfo` reports
`IsPrivateIP = true` and a non-empty `IPv4Address` — contradicting the
claim that both family fields are empty and `IsPrivateIP` is false for
every split-failing peer string. -/
theorem claim_C6_counterexample :
    (∀ g ∈ headerPriority, headerGet ⟨[], "10.0.0.1"⟩ g = "") ∧
    splitHostPort "10.0.0.1" = none ∧
    (GetInfo ⟨[], "10.0.0.1"⟩ "ts").IsPrivateIP = true ∧
    (GetInfo ⟨[], "10.0.0.1"⟩ "ts").IPv4Address = "10.0.0.1" := by decide

/-- C6 (amended): with no priority header set and a peer string that
fails host:port splitting AND is not itself a valid IP address, `GetInfo`
returns the raw peer string via "RemoteAddr", both family fields empty,
and `IsPrivateIP = false`. -/
theorem claim_C6_degenerate (r : GoRequest) (now : String)
    (hempty : ∀ g ∈ headerPriority, headerGet r g = "")
    (hsplit : splitHostPort r.remoteAddr = none)
    (hinvalid : IsValid r.remoteAddr = false) :
    (GetInfo r now).ClientIP = r.remoteAddr ∧
    (GetInfo r now).DetectedVia = "RemoteAddr" ∧
    (GetInfo r now).IPv4Address = "" ∧
    (GetInfo r now).IPv6Address = "" ∧
    (GetInfo r now).IsPrivateIP = false := by
  have hscan : scanHeaders (headerGet r) headerPriority = none :=
    scanHeaders_all_empty headerPriority hempty
  have hex : ExtractClientIP r = (r.remoteAddr, "RemoteAddr") := by
    simp only [ExtractClientIP]
    rw [hscan, hsplit]
  have hfb : fallbackHost r.remoteAddr = r.remoteAddr := by
    simp only [fallbackHost]; rw [hsplit]
  have h4 : FindIPv4 r = "" := by
    simp only [FindIPv4]
    rw [scanFamily_none headerPriority hscan, hfb, if_neg (by simp [hinvalid])]
  have h6 : FindIPv6 r = "" := by
    simp only [FindIPv6]
    rw [scanFamily_none headerPriority hscan, hfb, if_neg (by simp [hinvalid])]
  refine ⟨by simp [GetInfo, hex], by simp [GetInfo, hex], h4, h6, ?_⟩
  show IsPrivate (ExtractClientIP r).1 = false
  rw [hex]
  exact IsPrivate_false_of_invalid hinvalid

theorem claim_C6_degenerate_witness :
    (GetInfo ⟨[], "garbage"⟩ "t").ClientIP = "garbage" ∧
    (GetInfo ⟨[], "garbage"⟩ "t").DetectedVia = "RemoteAddr" ∧
    (GetInfo ⟨[], "garbage"⟩ "t").IPv4Address = "" ∧
    (GetInfo ⟨[], "garbage"⟩ "t").IPv6Address = "" ∧
    (GetInfo ⟨[], "garbage"⟩ "t").IsPrivateIP = false :=
  claim_C6_degenerate ⟨[], "garbage"⟩ "t" (by decide) (by decide) (by decide)

/-- C7: totality — every core operation is a total function (none of the
embedded definitions returns an error and none is partial), the fixed
CIDR tables parse (so the only fatal path, `parseCIDR`'s abort, is never
taken), and malformed inputs yield the sentinel results: false, the
empty string, or the verbatim fallback. -/
theorem claim_C7_totality :
    ((goParseCIDR "10.0.0.0/8").isSome = true ∧
     (goParseCIDR "172.16.0.0/12").isSome = true ∧
     (goParseCIDR "192.168.0.0/16").isSome = true ∧
     (goParseCIDR "169.254.0.0/16").isSome = true ∧
     (goParseCIDR "127.0.0.0/8").isSome = true ∧
     (goParseCIDR "fc00::/7").isSome = true ∧
     (goParseCIDR "fe80::/10").isSome = true ∧
     (goParseCIDR "::1/128").isSome = true) ∧
    (∀ s : String, goParseIP s = none → IsValid s = false ∧ IsPrivate s = false) ∧
    (IsValid "" = false ∧ IsPrivate "" = false) ∧
    (ExtractClientIP ⟨[], ""⟩ = ("", "RemoteAddr") ∧ FindIPv4 ⟨[], ""⟩ = "" ∧
     FindIPv6 ⟨[], ""⟩ = "" ∧ IsCloudflareRequest ⟨[], ""⟩ = false ∧
     RemoveDuplicates none = none ∧ RemoveDuplicates (some []) = some [] ∧
     GetInfo ⟨[], ""⟩ "now" = ⟨"", "RemoteAddr", "", "", false, false, "", "now"⟩) := by
  refine ⟨by decide, ?_, by decide, by decide⟩
  intro s hp
  have hv : IsValid s = false := by simp [IsValid, hp]
  exact ⟨hv, IsPrivate_false_of_invalid hv⟩

theorem claim_C7_totality_witness :
    IsValid "not.an.ip" = false ∧ IsPrivate "not.an.ip" = false :=
  claim_C7_totality.2.1 "not.an.ip" (by decide)

/-- C8: `RemoveDuplicates` preserves first-occurrence order and drops
later repeats (it equals the walk-and-append-if-new spec), returns an
already-deduplicated list unchanged, is idempotent, and preserves the
nil-ness of the input verbatim (`nil` in, `nil` out; empty non-nil in,
empty non-nil out). -/
theorem claim_C8_removeDuplicates :
    RemoveDuplicates none = none ∧
    RemoveDuplicates (some ([] : List String)) = some [] ∧
    some ([] : List String) ≠ none ∧
    (∀ l : List String, l.Nodup → RemoveDuplicates (some l) = some l) ∧
    (∀ s, RemoveDuplicates (RemoveDuplicates s) = RemoveDuplicates s) ∧
    (∀ l : List String, RemoveDuplicates (some l) = some (dedupFoldSpec l)) ∧
    (∀ l : List String, (dedupFoldSpec l).Sublist l ∧ (dedupFoldSpec l).Nodup ∧
      ∀ x, x ∈ dedupFoldSpec l ↔ x ∈ l) ∧
    RemoveDuplicates (some ["", "", "a", ""]) = some ["", "a"] := by
  have hfold : ∀ l : List String, dedupFoldSpec l = dedupSeen [] l := by
    intro l
    rw [dedupFoldSpec, foldl_dedupSeen]
    simp
  refine ⟨rfl, rfl, by simp, fun l h => RemoveDuplicates_of_nodup h,
    RemoveDuplicates_idem, RemoveDuplicates_eq_foldSpec, ?_, by decide⟩
  intro l
  rw [hfold]
  exact ⟨dedupSeen_sublist l [], dedupSeen_nodup l [],
    fun x => by rw [mem_dedupSeen]; simp⟩

theorem claim_C8_removeDuplicates_witness :
    RemoveDuplicates (some ["a", "b"]) = some ["a", "b"] :=
  claim_C8_removeDuplicates.2.2.2.1 ["a", "b"] (by decide)

/-- C9: `IsCloudflareRequest` is true exactly when one of
CF-Connecting-IP, CF-Ray, True-Client-IP is present with a non-empty
value — independent of the value being a valid IP: a lone
`CF-Ray: "garbage"` makes it true. -/
theorem claim_C9_cloudflare :
    (∀ r : GoRequest, IsCloudflareRequest r = true ↔
      (headerGet r "CF-Connecting-IP" ≠ "" ∨ headerGet r "CF-Ray" ≠ "" ∨
       headerGet r "True-Client-IP" ≠ "")) ∧
    IsCloudflareRequest ⟨[("CF-Ray", "garbage")], "203.0.113.9:1"⟩ = true ∧
    IsValid "garbage" = false := by
  refine ⟨?_, by decide, by decide⟩
  intro r
  simp [IsCloudflareRequest, Bool.or_eq_true, bne_iff_ne, or_assoc]

theorem claim_C9_cloudflare_witness :
    IsCloudflareRequest ⟨[("CF-Ray", "garbage")], "203.0.113.9:1"⟩ = true :=
  (claim_C9_cloudflare.1 ⟨[("CF-Ray", "garbage")], "203.0.113.9:1"⟩).mpr
    (Or.inr (Or.inl (by decide)))

/-- C10: repeated-header blindness — a later occurrence of a header name
that already occurs earlier in the Request Context is invisible to
`ExtractClientIP`, `FindIPv4` and `FindIPv6` (only the first value is
inspected); concretely, a valid address in the second X-Forwarded-For
occurrence is ignored and the scan falls through to the peer fallback. -/
theorem claim_C10_repeated_header_blindness :
    (∀ (h₁ h₂ : List (String × String)) (name v remote : String),
      (∃ p ∈ h₁, p.1 = name) →
      ExtractClientIP ⟨h₁ ++ (name, v) :: h₂, remote⟩ =
        ExtractClientIP ⟨h₁ ++ h₂, remote⟩ ∧
      FindIPv4 ⟨h₁ ++ (name, v) :: h₂, remote⟩ = FindIPv4 ⟨h₁ ++ h₂, remote⟩ ∧
      FindIPv6 ⟨h₁ ++ (name, v) :: h₂, remote⟩ = FindIPv6 ⟨h₁ ++ h₂, remote⟩) ∧
    ExtractClientIP ⟨[("X-Forwarded-For", "invalid"),
      ("X-Forwarded-For", "203.0.113.1")], "no-colon-peer"⟩ =
      ("no-colon-peer", "RemoteAddr") := by
  refine ⟨?_, by decide⟩
  intro h₁ h₂ name v remote hp
  refine ⟨?_, ?_, ?_⟩
  · simp only [ExtractClientIP]
    rw [scanHeaders_congr (fun n => headerGet_drop_dup hp n) headerPriority]
  · simp only [FindIPv4]
    rw [scanFamily_congr (fun n => headerGet_drop_dup hp n) headerPriority]
  · simp only [FindIPv6]
    rw [scanFamily_congr (fun n => headerGet_drop_dup hp n) headerPriority]

theorem claim_C10_repeated_header_blindness_witness :
    ExtractClientIP ⟨[("X-Forwarded-For", "invalid"),
      ("X-Forwarded-For", "203.0.113.1")], "198.51.100.2:80"⟩ =
      ExtractClientIP ⟨[("X-Forwarded-For", "invalid")], "198.51.100.2:80"⟩ ∧
    FindIPv4 ⟨[("X-Forwarded-For", "invalid"),
      ("X-Forwarded-For", "203.0.113.1")], "198.51.100.2:80"⟩ =
      FindIPv4 ⟨[("X-Forwarded-For", "invalid")], "198.51.100.2:80"⟩ ∧
    FindIPv6 ⟨[("X-Forwarded-For", "invalid"),
      ("X-Forwarded-For", "203.0.113.1")], "198.51.100.2:80"⟩ =
      FindIPv6 ⟨[("X-Forwarded-For", "invalid")], "198.51.100.2:80"⟩ :=
  claim_C10_repeated_header_blindness.1 [("X-Forwarded-For", "invalid")] []
    "X-Forwarded-For" "203.0.113.1" "198.51.100.2:80"
    ⟨("X-Forwarded-For", "invalid"), by decide, rfl⟩

end MyIP
